import Mathlib

/-!
Verification of the UID-to-path codec and retrieval/export pipeline of
m4db-analysis.  Python strings are embedded as `List Char`; fallible code
returns `Except Err`.  The definitions below are shallow embeddings of
`src/lib/m4db_analysis/utilities.py` and
`src/lib/m4db_analysis/entry_point.py`.
-/

/-- Characters of a string literal, used to write inputs compactly. -/
def strChars (s : String) : List Char := s.data

/-- Errors raised by the embedded code.  `invalidUidFormat`,
`invalidSegmentCount` and `invalidHexPair` model the `ValueError`s raised in
`utilities.py`; `typeError` models the `TypeError` raised by `list(*pairs)`
when it receives two or more arguments; `sourceArchiveMissing` models the
`FileNotFoundError` raised by `shutil.copy` on a missing source file. -/
inductive Err where
  | invalidUidFormat (s : List Char)
  | invalidSegmentCount (n : Nat)
  | invalidHexPair (p : List Char)
  | typeError
  | sourceArchiveMissing (path : List Char)
deriving DecidableEq, Repr

deriving instance DecidableEq for Except

/-- One character of the class `[0-9A-Fa-f]` (`HEX_RE_STR` in utilities.py). -/
def isHexChar (c : Char) : Bool :=
  ('0' ≤ c && c ≤ '9') || ('A' ≤ c && c ≤ 'F') || ('a' ≤ c && c ≤ 'f')

/-- Embedding of `HEX_REGEX.match(s)`: `re.match` anchors at the start only, and the
pattern is the single character class `[0-9A-Fa-f]`, so this succeeds exactly
when the first character of `s` is a hex digit. -/
def hexRegexMatch (s : List Char) : Bool :=
  match s with
  | [] => false
  | c :: _ => isHexChar c

/-- Match exactly `n` hex characters at the front, returning the rest. -/
def matchHexRun : Nat → List Char → Option (List Char)
  | 0, s => some s
  | _ + 1, [] => none
  | n + 1, c :: s => if isHexChar c then matchHexRun n s else none

/-- Match one literal character at the front, returning the rest. -/
def matchChar (a : Char) : List Char → Option (List Char)
  | [] => none
  | c :: s => if c = a then some s else none

/-- Embedding of `UID_REGEX.match(s)`: the pattern `[hex]{8}-[hex]{4}-[hex]{4}-[hex]{4}-[hex]{12}`
matched at the start of `s` only (`re.match` has no end anchor, so trailing
characters after the 36-character prefix are ignored). -/
def uidRegexMatch (s : List Char) : Bool :=
  (Option.bind (matchHexRun 8 s) (fun s1 =>
    Option.bind (matchChar '-' s1) (fun s2 =>
      Option.bind (matchHexRun 4 s2) (fun s3 =>
        Option.bind (matchChar '-' s3) (fun s4 =>
          Option.bind (matchHexRun 4 s4) (fun s5 =>
            Option.bind (matchChar '-' s5) (fun s6 =>
              Option.bind (matchHexRun 4 s6) (fun s7 =>
                Option.bind (matchChar '-' s7) (fun s8 =>
                  matchHexRun 12 s8))))))))).isSome

/-- The list comprehension `[path_str[i:i + 2] for i in range(0, len(path_str), 2)]`:
consecutive chunks of two characters, with a final one-character chunk when the
length is odd. -/
def chunks2 : List Char → List (List Char)
  | [] => []
  | [c] => [[c]]
  | c :: d :: rest => [c, d] :: chunks2 rest

/-- The posix path separator test. -/
def isSep (c : Char) : Bool := decide (c = '/')

/-- Shallow embedding of `os.path.split` (posixpath): split after the last
separator; the head keeps no trailing separators unless it consists only of
separators. -/
def posixSplit (p : List Char) : List Char × List Char :=
  let tl := (List.takeWhile (fun c => !(isSep c)) p.reverse).reverse
  let hd := (List.dropWhile (fun c => !(isSep c)) p.reverse).reverse
  (if hd.any (fun c => !(isSep c)) then (List.dropWhile isSep hd.reverse).reverse else hd, tl)

/-- The `while 1` loop of `split_all` in utilities.py, with explicit fuel.
Each iteration splits off the last path component; the loop stops at one of
the two sentinel conditions (`parts[0] == path` for absolute paths,
`parts[1] == path` for relative ones). `none` means the fuel ran out. -/
def split_all_fuel : Nat → List Char → Option (List (List Char))
  | 0, _ => none
  | n + 1, path =>
    let parts := posixSplit path
    if parts.1 = path then some [parts.1]
    else if parts.2 = path then some [parts.2]
    else (split_all_fuel n parts.1).map (fun l => l ++ [parts.2])

/-- Embedding of `split_all(path)` from utilities.py.  `length + 1` units of fuel always
suffice (proved below), so the default value is never used. -/
def split_all (p : List Char) : List (List Char) :=
  (split_all_fuel (p.length + 1) p).getD []

/-- One step of `os.path.join` (posixpath): an absolute component restarts the
path; otherwise a separator is inserted unless one is already present. -/
def joinOne (acc p : List Char) : List Char :=
  if p.head? = some '/' then p
  else if acc = [] ∨ acc.getLast? = some '/' then acc ++ p
  else acc ++ '/' :: p

/-- Shallow embedding of `os.path.join(*parts)` (posixpath). -/
def osPathJoin : List (List Char) → List Char
  | [] => []
  | p :: rest => rest.foldl joinOne p

/-- Separator-joined segments: the normal form `os.path.join` produces for
nonempty, separator-free components; used to state the path-splitting
lemmas. -/
def joinPath : List (List Char) → List Char
  | [] => []
  | [p] => p
  | p :: q :: rest => p ++ '/' :: joinPath (q :: rest)

/-- The path built by `uid_to_dir` after validation: hyphens removed, the
remaining characters chunked into pairs, and the chunks joined with the path
separator. -/
def uidShardPath (unique_id : List Char) : List Char :=
  osPathJoin (chunks2 (unique_id.filter (fun c => c ≠ '-')))

/-- Embedding of `uid_to_dir(unique_id)` from utilities.py: validate against `UID_REGEX`,
strip hyphens, chunk into pairs, join as a path. -/
def uid_to_dir (unique_id : List Char) : Except Err (List Char) :=
  if uidRegexMatch unique_id then .ok (uidShardPath unique_id)
  else .error (.invalidUidFormat unique_id)

/-- A Python value passed in the `*pairs` varargs of `hex_pairs_to_uid`: the
callers pass either strings (one per path component, from `dir_to_uid`) or a
single list of strings. -/
inductive PyVal where
  | str (s : List Char)
  | strList (l : List (List Char))
deriving DecidableEq, Repr

/-- Semantics of `list(*pairs)` where `pairs` is the varargs tuple: with no
argument it yields `[]`; with a single string it yields the list of its
one-character strings; with a single list it copies it; with two or more
arguments `list` raises `TypeError`. -/
def pyListStar : List PyVal → Except Err (List (List Char))
  | [] => .ok []
  | [PyVal.str s] => .ok (s.map (fun c => [c]))
  | [PyVal.strList l] => .ok l
  | _ :: _ :: _ => .error .typeError

/-- The `for pair in lst_pairs` validation loop of `hex_pairs_to_uid`: the
first pair rejected by `HEX_REGEX.match`, if any. -/
def firstBadPair : List (List Char) → Option (List Char)
  | [] => none
  | p :: rest => if hexRegexMatch p then firstBadPair rest else some p

/-- The format string `'{}{}{}{}-{}{}-{}{}-{}{}-{}{}{}{}{}{}'.format(*lst_pairs)`
applied to a 16-element list (grouping 4-2-2-2-6 pairs). -/
def uidFormat (l : List (List Char)) : List Char :=
  l.getD 0 [] ++ l.getD 1 [] ++ l.getD 2 [] ++ l.getD 3 [] ++
    '-' :: (l.getD 4 [] ++ l.getD 5 [] ++
      '-' :: (l.getD 6 [] ++ l.getD 7 [] ++
        '-' :: (l.getD 8 [] ++ l.getD 9 [] ++
          '-' :: (l.getD 10 [] ++ l.getD 11 [] ++ l.getD 12 [] ++
            l.getD 13 [] ++ l.getD 14 [] ++ l.getD 15 []))))

/-- Embedding of `hex_pairs_to_uid(*pairs)` from utilities.py: build `lst_pairs` via
`list(*pairs)`, require exactly 16 entries, require `HEX_REGEX.match` on each
entry, then format with hyphens inserted. -/
def hex_pairs_to_uid (pairs : List PyVal) : Except Err (List Char) :=
  match pyListStar pairs with
  | .error e => .error e
  | .ok lst_pairs =>
    if lst_pairs.length = 16 then
      match firstBadPair lst_pairs with
      | some p => .error (.invalidHexPair p)
      | none => .ok (uidFormat lst_pairs)
    else .error (.invalidSegmentCount lst_pairs.length)

/-- Embedding of `dir_to_uid(path_dir)` from utilities.py: split the path into components
and call `hex_pairs_to_uid(*path_spt)`, i.e. pass each component as a separate
string argument. -/
def dir_to_uid (path_dir : List Char) : Except Err (List Char) :=
  hex_pairs_to_uid ((split_all path_dir).map PyVal.str)

/-- Whether an embedded call returned normally (did not raise). -/
def isOkE : Except Err (List Char) → Bool
  | .ok _ => true
  | .error _ => false

/-- Specification-side predicate (from the spec, for comparison with the
code): `u` begins with the canonical 8-4-4-4-12 hyphenated hex grouping,
possibly followed by arbitrary extra characters `rest`. -/
def specUidStart (u : List Char) : Prop :=
  ∃ g1 g2 g3 g4 g5 rest : List Char,
    u = g1 ++ '-' :: (g2 ++ '-' :: (g3 ++ '-' :: (g4 ++ '-' :: (g5 ++ rest)))) ∧
    g1.length = 8 ∧ g2.length = 4 ∧ g3.length = 4 ∧ g4.length = 4 ∧ g5.length = 12 ∧
    (∀ c ∈ g1, isHexChar c = true) ∧ (∀ c ∈ g2, isHexChar c = true) ∧
    (∀ c ∈ g3, isHexChar c = true) ∧ (∀ c ∈ g4, isHexChar c = true) ∧
    (∀ c ∈ g5, isHexChar c = true)

/-- Specification-side predicate: a valid shard-path segment, i.e. exactly two
hexadecimal characters. -/
def specHexPair (p : List Char) : Prop :=
  p.length = 2 ∧ ∀ c ∈ p, isHexChar c = true

instance decidableSpecHexPair (p : List Char) : Decidable (specHexPair p) :=
  decidable_of_iff (p.length = 2 ∧ ∀ c ∈ p, isHexChar c = true) Iff.rfl

/-- The filesystem as seen by the retrieval pipeline: a set of directories and
a map from file paths to contents. -/
structure FS where
  dirs : List Char → Bool
  files : List Char → Option (List Char)

/-- Embedding of `os.makedirs(d, exist_ok=True)`: create the directory; succeeding (and
changing nothing) if it already exists. -/
def makedirs (fs : FS) (d : List Char) : FS :=
  { fs with dirs := fun p => if p = d then true else fs.dirs p }

/-- Embedding of `shutil.copy(src, dst)`: raises `FileNotFoundError` (modelled as
`sourceArchiveMissing`) when the source file is absent, otherwise writes the
source bytes to `dst`, overwriting any existing file. -/
def copyFile (fs : FS) (src dst : List Char) : Except Err FS :=
  match fs.files src with
  | none => .error (.sourceArchiveMissing src)
  | some content =>
    .ok { fs with files := fun p => if p = dst then some content else fs.files p }

/-- One row of the result set built by `get_models_by_user_project`: the 25
selected columns, in select order.  Values are modelled by their rendered
string forms, so the `str(...)` coercions applied to `size` and `temperature`
in `retrieve_models` are the identity here. -/
structure ModelRecord where
  unique_id : List Char
  db_user : List Char
  project_name : List Char
  material : List Char
  temperature : List Char
  geometry : List Char
  size : List Char
  mx_tot : List Char
  my_tot : List Char
  mz_tot : List Char
  vx_tot : List Char
  vy_tot : List Char
  vz_tot : List Char
  h_tot : List Char
  adm_tot : List Char
  e_typical : List Char
  e_anis : List Char
  e_ext : List Char
  e_demag : List Char
  e_exch1 : List Char
  e_exch2 : List Char
  e_exch3 : List Char
  e_exch4 : List Char
  e_tot : List Char
  volume : List Char
deriving Repr

/-- The `output_dir` computed in `retrieve_models`:
`os.path.join(destination_dir, db_user, project_name, material, geometry, str(size), str(temperature))`. -/
def destDir (destination_dir : List Char) (row : ModelRecord) : List Char :=
  osPathJoin [destination_dir, row.db_user, row.project_name, row.material,
    row.geometry, row.size, row.temperature]

/-- The `output_zip` computed in `retrieve_models`:
`os.path.join(output_dir, f"{unique_id}.zip")`. -/
def destZip (destination_dir : List Char) (row : ModelRecord) : List Char :=
  osPathJoin [destDir destination_dir row, row.unique_id ++ strChars (r".zip")]

/-- The `source_zip` computed in `retrieve_models` when `uid_to_dir` succeeds:
`os.path.join(source_dir, uid_to_dir(unique_id), "data.zip")`. -/
def srcZip (source_dir : List Char) (row : ModelRecord) : List Char :=
  osPathJoin [source_dir, uidShardPath row.unique_id, strChars (r"data.zip")]

/-- The `for row in rows` loop of `retrieve_models` in entry_point.py: for
each record compute the destination directory and file, resolve the source
archive through `uid_to_dir`, create the destination directory
(`exist_ok=True`), and copy the archive.  Any raised error aborts the loop;
the filesystem changes made so far persist. -/
def retrieveLoop (destination_dir source_dir : List Char) :
    List ModelRecord → FS → FS × Option Err
  | [], fs => (fs, none)
  | row :: rest, fs =>
    match uid_to_dir row.unique_id with
    | .error e => (fs, some e)
    | .ok sdir =>
      match copyFile (makedirs fs (destDir destination_dir row))
          (osPathJoin [source_dir, sdir, strChars (r"data.zip")])
          (destZip destination_dir row) with
      | .error e => (makedirs fs (destDir destination_dir row), some e)
      | .ok fs2 => retrieveLoop destination_dir source_dir rest fs2

/-- Embedding of `retrieve_models` from entry_point.py, given the already-fetched result
set.  The returned number models the record count the command reports
(`len(rows)`); an aborted run yields the error instead of a count. -/
def retrieve_models (rows : List ModelRecord) (destination_dir source_dir : List Char)
    (fs : FS) : FS × Except Err Nat :=
  match retrieveLoop destination_dir source_dir rows fs with
  | (fs', none) => (fs', .ok rows.length)
  | (fs', some e) => (fs', .error e)

/-- The 25 column names of the `df_dict` built in `model_stats`, in insertion
(and therefore dataframe column) order. -/
def statColumns : List (List Char) :=
  [strChars (r"unique_id"), strChars (r"db_user"), strChars (r"project_name"),
   strChars (r"material"), strChars (r"temperature"), strChars (r"geometry"),
   strChars (r"size"), strChars (r"mx_tot"), strChars (r"my_tot"),
   strChars (r"mz_tot"), strChars (r"vx_tot"), strChars (r"vy_tot"),
   strChars (r"vz_tot"), strChars (r"h_tot"), strChars (r"adm_tot"),
   strChars (r"e_typical"), strChars (r"e_anis"), strChars (r"e_ext"),
   strChars (r"e_demag"), strChars (r"e_exch1"), strChars (r"e_exch2"),
   strChars (r"e_exch3"), strChars (r"e_exch4"), strChars (r"e_tot"),
   strChars (r"volume")]

/-- The values appended for one record in the `for row in rows` loop of
`model_stats`, in the same fixed order as `statColumns`. -/
def recordFields (row : ModelRecord) : List (List Char) :=
  [row.unique_id, row.db_user, row.project_name, row.material, row.temperature,
   row.geometry, row.size, row.mx_tot, row.my_tot, row.mz_tot, row.vx_tot,
   row.vy_tot, row.vz_tot, row.h_tot, row.adm_tot, row.e_typical, row.e_anis,
   row.e_ext, row.e_demag, row.e_exch1, row.e_exch2, row.e_exch3, row.e_exch4,
   row.e_tot, row.volume]

/-- Decimal digits of `n`, most significant first (fuelled division loop). -/
def natCharsAux : Nat → Nat → List Char → List Char
  | 0, _, acc => acc
  | fuel + 1, n, acc =>
    let d := Char.ofNat (48 + n % 10)
    if n < 10 then d :: acc else natCharsAux fuel (n / 10) (d :: acc)

/-- The decimal rendering of a row index, as pandas writes it in the unlabeled
leading index column. -/
def natChars (n : Nat) : List Char := natCharsAux (n + 1) n []

/-- The tabular structure `model_stats` serializes: a header row (an empty
label for the index column followed by the 25 column names), then one row per
record (its index followed by its 25 field values). -/
def model_stats_table (rows : List ModelRecord) : List (List (List Char)) :=
  ([] :: statColumns) :: rows.enum.map (fun x => natChars x.1 :: recordFields x.2)

/-- Embedding of `model_stats` from entry_point.py, given the already-fetched result set:
the dataframe it writes with `to_csv`, and the record count the command
reports (`len(rows)`). -/
def model_stats (rows : List ModelRecord) : List (List (List Char)) × Nat :=
  (model_stats_table rows, rows.length)

/-- Join fields or lines with a separator character. -/
def sepJoin (c : Char) : List (List Char) → List Char
  | [] => []
  | [f] => f
  | f :: g :: rest => f ++ c :: sepJoin c (g :: rest)

/-- The delimited text `to_csv` produces from the table: comma-separated
fields, newline-separated rows (quoting is not needed for fields free of
commas and newlines, which is the hypothesis under which line counts are
stated). -/
def csvRender (t : List (List (List Char))) : List Char :=
  sepJoin '\n' (t.map (sepJoin ','))

/-- Number of lines of a text. -/
def countLines (s : List Char) : Nat :=
  (s.filter (fun c => c = '\n')).length + 1

/-- One row of the relational join in the query of
`get_models_by_user_project`: the 25 selected columns together with the
`running_status.name` column the query filters on (`db_user.user_name` and
`project.name` are selected, so they appear inside `mrec`). -/
structure CatalogRow where
  mrec : ModelRecord
  status_name : List Char
deriving Repr

/-- Modelled from the spec: SQL `LIKE` pattern matching as evaluated by the
external catalog (`%` matches any sequence, `_` matches exactly one
character, every other character matches itself); the catalog engine is an
external collaborator, only the query text lives in this repository. -/
def likeMatch : List Char → List Char → Bool
  | [], t => t.isEmpty
  | a :: p, t =>
    if a = '%' then
      (likeMatch p t ||
        match t with
        | [] => false
        | _ :: t' => likeMatch (a :: p) t')
    else
      match t with
      | [] => false
      | c :: t' => if a = '_' then likeMatch p t' else if a = c then likeMatch p t' else false
  termination_by p t => p.length + t.length

/-- Embedding of `get_models_by_user_project` from entry_point.py: the fixed query filtered
by `user_name LIKE db_user`, `project.name LIKE project_name` and
`running_status.name LIKE 'finished'`, one `ModelRecord` per returned row. -/
def get_models_by_user_project (db_user project_name : List Char)
    (catalog : List CatalogRow) : List ModelRecord :=
  (catalog.filter (fun row =>
    likeMatch db_user row.mrec.db_user &&
    likeMatch project_name row.mrec.project_name &&
    likeMatch (strChars (r"finished")) row.status_name)).map (fun row => row.mrec)

/-- A concrete record used by the witnesses. -/
def exRec : ModelRecord :=
  { unique_id := strChars (r"0f86b938-15a3-4f1e-99b1-8f2b65b37a03")
    db_user := strChars (r"alice")
    project_name := strChars (r"proj")
    material := strChars (r"magnetite")
    temperature := strChars (r"20.0")
    geometry := strChars (r"sphere")
    size := strChars (r"100.0")
    mx_tot := strChars (r"0.1")
    my_tot := strChars (r"0.2")
    mz_tot := strChars (r"0.3")
    vx_tot := strChars (r"0.4")
    vy_tot := strChars (r"0.5")
    vz_tot := strChars (r"0.6")
    h_tot := strChars (r"0.7")
    adm_tot := strChars (r"0.8")
    e_typical := strChars (r"1.0")
    e_anis := strChars (r"1.1")
    e_ext := strChars (r"1.2")
    e_demag := strChars (r"1.3")
    e_exch1 := strChars (r"1.4")
    e_exch2 := strChars (r"1.5")
    e_exch3 := strChars (r"1.6")
    e_exch4 := strChars (r"1.7")
    e_tot := strChars (r"1.8")
    volume := strChars (r"2.0") }

/-- A concrete record whose source archive the witness filesystem lacks. -/
def exRecBad : ModelRecord :=
  { exRec with unique_id := strChars (r"11111111-2222-3333-4444-555555555555") }

/-- A concrete filesystem holding only `exRec`'s source archive under the
source root `/src`. -/
def exFS : FS :=
  { dirs := fun _ => false
    files := fun p =>
      if p = srcZip (strChars (r"/src")) exRec then some (strChars (r"ZIPDATA")) else none }

/-- C1: the round trip `dir_to_uid (uid_to_dir u)` never returns `u`.  At the
example UID from `dir_to_uid`'s own docstring, encoding succeeds, but decoding
the resulting path raises `TypeError`: `dir_to_uid` calls
`hex_pairs_to_uid(*path_spt)`, unpacking the 16 components into 16 separate
arguments, and the body's `list(*pairs)` then calls `list` with 16 arguments.
The claim (and the docstring of `dir_to_uid`) says the original UID is
returned, so this is a bug in the code. -/
theorem c1_roundtrip_raises_type_error :
    uid_to_dir (strChars (r"0f86b938-15a3-4f1e-99b1-8f2b65b37a03")) =
      .ok (strChars (r"0f/86/b9/38/15/a3/4f/1e/99/b1/8f/2b/65/b3/7a/03")) ∧
    dir_to_uid (strChars (r"0f/86/b9/38/15/a3/4f/1e/99/b1/8f/2b/65/b3/7a/03")) =
      .error .typeError := by
  decide

/-- C3 counterexample: a 16-segment input containing the one-character segment
`"a"` and the segment `"0z"` (hex first character, non-hex second) is accepted
by the decode validation, not rejected with `InvalidHexPair`: `HEX_REGEX` is
the single-character class `[0-9A-Fa-f]` and `re.match` only inspects the
first character of each segment. -/
theorem c3_counterexample :
    hex_pairs_to_uid [PyVal.strList
      [strChars (r"00"), strChars (r"00"), strChars (r"00"), strChars (r"00"),
       strChars (r"00"), strChars (r"00"), strChars (r"00"), strChars (r"00"),
       strChars (r"00"), strChars (r"00"), strChars (r"00"), strChars (r"00"),
       strChars (r"00"), strChars (r"00"), strChars (r"a"), strChars (r"0z")]] =
      .ok (strChars (r"00000000-0000-0000-0000-00000000a0z")) := by
  decide

/-- C4 counterexample: a valid canonical UID followed by the extra trailing
characters `XYZ` is accepted by `uid_to_dir` and produces a path, instead of
failing with `InvalidUidFormat`: `UID_REGEX` is used with `re.match`, which
anchors at the start of the string only. -/
theorem c4_counterexample :
    uid_to_dir (strChars (r"0f86b938-15a3-4f1e-99b1-8f2b65b37a03XYZ")) =
      .ok (strChars (r"0f/86/b9/38/15/a3/4f/1e/99/b1/8f/2b/65/b3/7a/03/XY/Z")) := by
  decide

/-- C5 counterexample: for a path naming 16 two-hex-character directories, the
absolute form splits into 17 components (the root `/` is kept as the first
component), not 16; and decoding the relative form does not yield the UID
either: it raises `TypeError` (see C1). -/
theorem c5_counterexample :
    (split_all (strChars (r"/0f/86/b9/38/15/a3/4f/1e/99/b1/8f/2b/65/b3/7a/03"))).length = 17 ∧
    split_all (strChars (r"/0f/86/b9/38/15/a3/4f/1e/99/b1/8f/2b/65/b3/7a/03")) =
      strChars (r"/") :: split_all (strChars (r"0f/86/b9/38/15/a3/4f/1e/99/b1/8f/2b/65/b3/7a/03")) ∧
    dir_to_uid (strChars (r"/0f/86/b9/38/15/a3/4f/1e/99/b1/8f/2b/65/b3/7a/03")) =
      .error .typeError := by
  decide

theorem matchHexRun_iff (n : Nat) :
    ∀ s r : List Char, matchHexRun n s = some r ↔
      ∃ t, s = t ++ r ∧ t.length = n ∧ ∀ c ∈ t, isHexChar c = true := by
  induction n with
  | zero =>
    intro s r
    simp only [matchHexRun, Option.some.injEq]
    constructor
    · rintro rfl
      exact ⟨[], by simp⟩
    · rintro ⟨t, rfl, ht, -⟩
      rw [List.length_eq_zero] at ht
      simp [ht]
  | succ n ih =>
    intro s r
    cases s with
    | nil =>
      constructor
      · intro h
        simp [matchHexRun] at h
      · rintro ⟨t, heq, ht, -⟩
        have h0 := heq.symm
        rw [List.append_eq_nil] at h0
        rw [h0.1] at ht
        simp at ht
    | cons c s =>
      by_cases hc : isHexChar c = true
      · rw [matchHexRun, if_pos hc, ih s r]
        constructor
        · rintro ⟨t, rfl, ht, hhex⟩
          refine ⟨c :: t, rfl, by simp [ht], ?_⟩
          intro x hx
          rcases List.mem_cons.mp hx with rfl | hx
          · exact hc
          · exact hhex x hx
        · rintro ⟨t, heq, ht, hhex⟩
          cases t with
          | nil => simp at ht
          | cons a t =>
            rw [List.cons_append, List.cons.injEq] at heq
            obtain ⟨rfl, rfl⟩ := heq
            refine ⟨t, rfl, by simpa using ht, ?_⟩
            intro x hx
            exact hhex x (List.mem_cons_of_mem _ hx)
      · rw [Bool.not_eq_true] at hc
        rw [matchHexRun, if_neg (by simp [hc])]
        constructor
        · intro h
          cases h
        · rintro ⟨t, heq, ht, hhex⟩
          cases t with
          | nil => simp at ht
          | cons a t =>
            rw [List.cons_append, List.cons.injEq] at heq
            obtain ⟨rfl, -⟩ := heq
            have := hhex c (by simp)
            rw [hc] at this
            cases this

theorem matchChar_iff (a : Char) (s r : List Char) :
    matchChar a s = some r ↔ s = a :: r := by
  cases s with
  | nil => simp [matchChar]
  | cons c s =>
    by_cases hc : c = a
    · subst hc
      simp [matchChar]
    · simp [matchChar, hc]

/-- Correctness of the embedded `UID_REGEX` matcher: it succeeds exactly on
strings that begin with the 8-4-4-4-12 hyphenated hex grouping (anything may
follow the 36-character prefix). -/
theorem uidRegexMatch_iff (u : List Char) :
    uidRegexMatch u = true ↔ specUidStart u := by
  constructor
  · intro h
    rw [uidRegexMatch, Option.isSome_iff_exists] at h
    obtain ⟨rest0, h⟩ := h
    simp only [Option.bind_eq_some] at h
    obtain ⟨s1, h1, s2, h2, s3, h3, s4, h4, s5, h5, s6, h6, s7, h7, s8, h8, h9⟩ := h
    obtain ⟨t1, rfl, hl1, hh1⟩ := (matchHexRun_iff 8 _ s1).mp h1
    rw [matchChar_iff] at h2
    subst h2
    obtain ⟨t2, rfl, hl2, hh2⟩ := (matchHexRun_iff 4 _ s3).mp h3
    rw [matchChar_iff] at h4
    subst h4
    obtain ⟨t3, rfl, hl3, hh3⟩ := (matchHexRun_iff 4 _ s5).mp h5
    rw [matchChar_iff] at h6
    subst h6
    obtain ⟨t4, rfl, hl4, hh4⟩ := (matchHexRun_iff 4 _ s7).mp h7
    rw [matchChar_iff] at h8
    subst h8
    obtain ⟨t5, rfl, hl5, hh5⟩ := (matchHexRun_iff 12 _ rest0).mp h9
    exact ⟨t1, t2, t3, t4, t5, rest0, rfl, hl1, hl2, hl3, hl4, hl5,
      hh1, hh2, hh3, hh4, hh5⟩
  · rintro ⟨g1, g2, g3, g4, g5, rest, rfl, hl1, hl2, hl3, hl4, hl5,
      hh1, hh2, hh3, hh4, hh5⟩
    have m1 := (matchHexRun_iff 8 (g1 ++ '-' :: (g2 ++ '-' :: (g3 ++ '-' ::
      (g4 ++ '-' :: (g5 ++ rest)))))
      ('-' :: (g2 ++ '-' :: (g3 ++ '-' :: (g4 ++ '-' :: (g5 ++ rest)))))).mpr
      ⟨g1, rfl, hl1, hh1⟩
    have m2 := (matchHexRun_iff 4 (g2 ++ '-' :: (g3 ++ '-' ::
      (g4 ++ '-' :: (g5 ++ rest))))
      ('-' :: (g3 ++ '-' :: (g4 ++ '-' :: (g5 ++ rest))))).mpr ⟨g2, rfl, hl2, hh2⟩
    have m3 := (matchHexRun_iff 4 (g3 ++ '-' :: (g4 ++ '-' :: (g5 ++ rest)))
      ('-' :: (g4 ++ '-' :: (g5 ++ rest)))).mpr ⟨g3, rfl, hl3, hh3⟩
    have m4 := (matchHexRun_iff 4 (g4 ++ '-' :: (g5 ++ rest))
      ('-' :: (g5 ++ rest))).mpr ⟨g4, rfl, hl4, hh4⟩
    have m5 := (matchHexRun_iff 12 (g5 ++ rest) rest).mpr ⟨g5, rfl, hl5, hh5⟩
    simp [uidRegexMatch, m1, m2, m3, m4, m5, matchChar]

/-- C4 (amended): `uid_to_dir` fails with `InvalidUidFormat` exactly when its
input does not begin with the canonical 8-4-4-4-12 hyphenated hex grouping;
any string whose first 36 characters form that grouping is accepted, trailing
characters included, because `UID_REGEX` is used with `re.match`, which
anchors only at the start of the string.  Hence only the start of the input is
validated, not the exact grouping of the whole string. -/
theorem c4_encode_validation (u : List Char) :
    (isOkE (uid_to_dir u) = true ↔ specUidStart u) ∧
    (uid_to_dir u = .error (.invalidUidFormat u) ↔ ¬ specUidStart u) := by
  have hiff := uidRegexMatch_iff u
  by_cases hm : uidRegexMatch u = true
  · have hs := hiff.mp hm
    simp [uid_to_dir, hm, isOkE, hs]
  · have hs : ¬ specUidStart u := fun h => hm (hiff.mpr h)
    rw [Bool.not_eq_true] at hm
    simp [uid_to_dir, hm, isOkE, hs]

/-- The embedded `HEX_REGEX.match` accepts exactly the segments whose first
character is a hexadecimal digit, regardless of what follows. -/
theorem hexRegexMatch_iff (p : List Char) :
    hexRegexMatch p = true ↔ ∃ c t, p = c :: t ∧ isHexChar c = true := by
  cases p with
  | nil => simp [hexRegexMatch]
  | cons c t =>
    constructor
    · intro h
      exact ⟨c, t, rfl, h⟩
    · rintro ⟨c', t', heq, hc⟩
      rw [List.cons.injEq] at heq
      rw [hexRegexMatch, heq.1]
      exact hc

theorem firstBadPair_eq_none (s : List (List Char)) :
    firstBadPair s = none ↔ ∀ p ∈ s, hexRegexMatch p = true := by
  induction s with
  | nil => simp [firstBadPair]
  | cons p s ih =>
    by_cases hp : hexRegexMatch p = true
    · simp [firstBadPair, hp, ih]
    · rw [firstBadPair, if_neg hp]
      constructor
      · intro h
        cases h
      · intro h
        exact absurd (h p (by simp)) hp

theorem firstBadPair_eq_some (s : List (List Char)) :
    ∀ p, firstBadPair s = some p → hexRegexMatch p = false := by
  induction s with
  | nil => intro p h; cases h
  | cons q s ih =>
    intro p h
    by_cases hq : hexRegexMatch q = true
    · rw [firstBadPair, if_pos hq] at h
      exact ih p h
    · rw [firstBadPair, if_neg hq] at h
      cases h
      exact Bool.not_eq_true _ |>.mp hq

/-- C3 (amended): called with the list of segments, the decode validation
fails with `InvalidSegmentCount` exactly when the segment count is not 16;
with 16 segments it fails with `InvalidHexPair`, naming the first segment
rejected by `HEX_REGEX.match` — and that check inspects only the FIRST
character of a segment, so a segment is rejected iff it is empty or starts
with a non-hex character.  Segments such as `"zz"` are rejected, but a
one-character segment like `"a"`, or `"0z"` (hex first character followed by
a non-hex character), is accepted. -/
theorem c3_decode_validation (s : List (List Char)) :
    (s.length ≠ 16 →
      hex_pairs_to_uid [PyVal.strList s] = .error (.invalidSegmentCount s.length)) ∧
    (s.length = 16 → ∀ p, firstBadPair s = some p →
      hexRegexMatch p = false ∧
      hex_pairs_to_uid [PyVal.strList s] = .error (.invalidHexPair p)) ∧
    (s.length = 16 → (∀ p ∈ s, hexRegexMatch p = true) →
      hex_pairs_to_uid [PyVal.strList s] = .ok (uidFormat s)) ∧
    (∀ p, hexRegexMatch p = true ↔ ∃ c t, p = c :: t ∧ isHexChar c = true) := by
  refine ⟨?_, ?_, ?_, hexRegexMatch_iff⟩
  · intro hlen
    simp [hex_pairs_to_uid, pyListStar, hlen]
  · intro hlen p hbp
    refine ⟨firstBadPair_eq_some s p hbp, ?_⟩
    simp [hex_pairs_to_uid, pyListStar, hlen, hbp]
  · intro hlen hall
    simp [hex_pairs_to_uid, pyListStar, hlen, (firstBadPair_eq_none s).mpr hall]


theorem c3_decode_validation_witness :
    hexRegexMatch (strChars (r"zz")) = false ∧
    hex_pairs_to_uid [PyVal.strList [strChars (r"zz"), strChars (r"00"), strChars (r"00"), strChars (r"00"), strChars (r"00"), strChars (r"00"), strChars (r"00"), strChars (r"00"), strChars (r"00"), strChars (r"00"), strChars (r"00"), strChars (r"00"), strChars (r"00"), strChars (r"00"), strChars (r"00"), strChars (r"00")]] =
      .error (.invalidHexPair (strChars (r"zz"))) :=
  (c3_decode_validation [strChars (r"zz"), strChars (r"00"), strChars (r"00"), strChars (r"00"), strChars (r"00"), strChars (r"00"), strChars (r"00"), strChars (r"00"), strChars (r"00"), strChars (r"00"), strChars (r"00"), strChars (r"00"), strChars (r"00"), strChars (r"00"), strChars (r"00"), strChars (r"00")]).2.1 (by decide) (strChars (r"zz")) (by decide)


theorem isHexChar_ne_dash {c : Char} (h : isHexChar c = true) : ¬ c = '-' := by
  intro heq
  subst heq
  exact absurd h (by decide)

theorem filter_ne_dash_eq_self (p : List Char) (h : ∀ c ∈ p, isHexChar c = true) :
    p.filter (fun c => c ≠ '-') = p := by
  refine List.filter_eq_self.mpr ?_
  intro a ha
  simpa using isHexChar_ne_dash (h a ha)

theorem filter_dash_cons (x : List Char) :
    ('-' :: x).filter (fun c => c ≠ '-') = x.filter (fun c => c ≠ '-') := by
  simp

theorem chunks2_flatten (l : List (List Char)) (h : ∀ p ∈ l, p.length = 2) :
    chunks2 l.flatten = l := by
  induction l with
  | nil => simp [chunks2]
  | cons p l ih =>
    have hp := h p (by simp)
    rcases p with _ | ⟨a, _ | ⟨b, _ | ⟨c, p⟩⟩⟩
    · simp at hp
    · simp at hp
    · rw [List.flatten_cons, List.cons_append, List.cons_append, List.nil_append,
        chunks2, ih (fun q hq => h q (by simp [hq]))]
    · simp at hp

theorem forall_hex_append {l1 l2 : List Char}
    (h1 : ∀ c ∈ l1, isHexChar c = true) (h2 : ∀ c ∈ l2, isHexChar c = true) :
    ∀ c ∈ l1 ++ l2, isHexChar c = true := by
  intro c hc
  rcases List.mem_append.mp hc with hc | hc
  · exact h1 c hc
  · exact h2 c hc


theorem uidFormat_eq (p0 p1 p2 p3 p4 p5 p6 p7 p8 p9 p10 p11 p12 p13 p14 p15 : List Char) :
    uidFormat [p0, p1, p2, p3, p4, p5, p6, p7, p8, p9, p10, p11, p12, p13, p14, p15] =
      p0 ++ p1 ++ p2 ++ p3 ++ '-' :: (p4 ++ p5 ++ '-' :: (p6 ++ p7 ++ '-' ::
        (p8 ++ p9 ++ '-' :: (p10 ++ p11 ++ p12 ++ p13 ++ p14 ++ p15)))) := rfl


theorem length_sixteen_destruct {α : Type} (s : List α) (h : s.length = 16) :
    ∃ p0 p1 p2 p3 p4 p5 p6 p7 p8 p9 p10 p11 p12 p13 p14 p15 : α,
      s = [p0, p1, p2, p3, p4, p5, p6, p7, p8, p9, p10, p11, p12, p13, p14, p15] := by
  obtain ⟨p0, s, rfl⟩ := List.exists_of_length_succ s h
  rw [List.length_cons] at h
  replace h : s.length = 15 := by omega
  obtain ⟨p1, s, rfl⟩ := List.exists_of_length_succ s h
  rw [List.length_cons] at h
  replace h : s.length = 14 := by omega
  obtain ⟨p2, s, rfl⟩ := List.exists_of_length_succ s h
  rw [List.length_cons] at h
  replace h : s.length = 13 := by omega
  obtain ⟨p3, s, rfl⟩ := List.exists_of_length_succ s h
  rw [List.length_cons] at h
  replace h : s.length = 12 := by omega
  obtain ⟨p4, s, rfl⟩ := List.exists_of_length_succ s h
  rw [List.length_cons] at h
  replace h : s.length = 11 := by omega
  obtain ⟨p5, s, rfl⟩ := List.exists_of_length_succ s h
  rw [List.length_cons] at h
  replace h : s.length = 10 := by omega
  obtain ⟨p6, s, rfl⟩ := List.exists_of_length_succ s h
  rw [List.length_cons] at h
  replace h : s.length = 9 := by omega
  obtain ⟨p7, s, rfl⟩ := List.exists_of_length_succ s h
  rw [List.length_cons] at h
  replace h : s.length = 8 := by omega
  obtain ⟨p8, s, rfl⟩ := List.exists_of_length_succ s h
  rw [List.length_cons] at h
  replace h : s.length = 7 := by omega
  obtain ⟨p9, s, rfl⟩ := List.exists_of_length_succ s h
  rw [List.length_cons] at h
  replace h : s.length = 6 := by omega
  obtain ⟨p10, s, rfl⟩ := List.exists_of_length_succ s h
  rw [List.length_cons] at h
  replace h : s.length = 5 := by omega
  obtain ⟨p11, s, rfl⟩ := List.exists_of_length_succ s h
  rw [List.length_cons] at h
  replace h : s.length = 4 := by omega
  obtain ⟨p12, s, rfl⟩ := List.exists_of_length_succ s h
  rw [List.length_cons] at h
  replace h : s.length = 3 := by omega
  obtain ⟨p13, s, rfl⟩ := List.exists_of_length_succ s h
  rw [List.length_cons] at h
  replace h : s.length = 2 := by omega
  obtain ⟨p14, s, rfl⟩ := List.exists_of_length_succ s h
  rw [List.length_cons] at h
  replace h : s.length = 1 := by omega
  obtain ⟨p15, s, rfl⟩ := List.exists_of_length_succ s h
  rw [List.length_cons] at h
  replace h : s.length = 0 := by omega
  rw [List.length_eq_zero] at h
  subst h
  exact ⟨p0, p1, p2, p3, p4, p5, p6, p7, p8, p9, p10, p11, p12, p13, p14, p15, rfl⟩

/-- C2: for every valid shard path — 16 segments of exactly two hex characters
each — encoding the UID obtained by decoding the segments reproduces them
exactly: the decode call (`hex_pairs_to_uid` applied to the segment list)
succeeds with the formatted UID, stripping that UID's hyphens and re-chunking
it into pairs yields back exactly the original segments, and `uid_to_dir`
accepts the UID and rebuilds exactly the joined shard path. -/
theorem c2_decode_encode_roundtrip (s : List (List Char))
    (h16 : s.length = 16) (hseg : ∀ p ∈ s, specHexPair p) :
    hex_pairs_to_uid [PyVal.strList s] = .ok (uidFormat s) ∧
    chunks2 ((uidFormat s).filter (fun c => c ≠ '-')) = s ∧
    uid_to_dir (uidFormat s) = .ok (osPathJoin s) := by
  have hall : ∀ p ∈ s, hexRegexMatch p = true := by
    intro p hp
    obtain ⟨hl, hh⟩ := hseg p hp
    rcases p with _ | ⟨a, t⟩
    · simp at hl
    · exact hh a (by simp)
  have h1 : hex_pairs_to_uid [PyVal.strList s] = .ok (uidFormat s) := by
    simp [hex_pairs_to_uid, pyListStar, h16, (firstBadPair_eq_none s).mpr hall]
  obtain ⟨p0, p1, p2, p3, p4, p5, p6, p7, p8, p9, p10, p11, p12, p13, p14, p15, rfl⟩ := length_sixteen_destruct s h16
  have hs0 := hseg p0 (by simp)
  have hs1 := hseg p1 (by simp)
  have hs2 := hseg p2 (by simp)
  have hs3 := hseg p3 (by simp)
  have hs4 := hseg p4 (by simp)
  have hs5 := hseg p5 (by simp)
  have hs6 := hseg p6 (by simp)
  have hs7 := hseg p7 (by simp)
  have hs8 := hseg p8 (by simp)
  have hs9 := hseg p9 (by simp)
  have hs10 := hseg p10 (by simp)
  have hs11 := hseg p11 (by simp)
  have hs12 := hseg p12 (by simp)
  have hs13 := hseg p13 (by simp)
  have hs14 := hseg p14 (by simp)
  have hs15 := hseg p15 (by simp)
  have f0 : p0.filter (fun c => c ≠ '-') = p0 := filter_ne_dash_eq_self p0 hs0.2
  have f1 : p1.filter (fun c => c ≠ '-') = p1 := filter_ne_dash_eq_self p1 hs1.2
  have f2 : p2.filter (fun c => c ≠ '-') = p2 := filter_ne_dash_eq_self p2 hs2.2
  have f3 : p3.filter (fun c => c ≠ '-') = p3 := filter_ne_dash_eq_self p3 hs3.2
  have f4 : p4.filter (fun c => c ≠ '-') = p4 := filter_ne_dash_eq_self p4 hs4.2
  have f5 : p5.filter (fun c => c ≠ '-') = p5 := filter_ne_dash_eq_self p5 hs5.2
  have f6 : p6.filter (fun c => c ≠ '-') = p6 := filter_ne_dash_eq_self p6 hs6.2
  have f7 : p7.filter (fun c => c ≠ '-') = p7 := filter_ne_dash_eq_self p7 hs7.2
  have f8 : p8.filter (fun c => c ≠ '-') = p8 := filter_ne_dash_eq_self p8 hs8.2
  have f9 : p9.filter (fun c => c ≠ '-') = p9 := filter_ne_dash_eq_self p9 hs9.2
  have f10 : p10.filter (fun c => c ≠ '-') = p10 := filter_ne_dash_eq_self p10 hs10.2
  have f11 : p11.filter (fun c => c ≠ '-') = p11 := filter_ne_dash_eq_self p11 hs11.2
  have f12 : p12.filter (fun c => c ≠ '-') = p12 := filter_ne_dash_eq_self p12 hs12.2
  have f13 : p13.filter (fun c => c ≠ '-') = p13 := filter_ne_dash_eq_self p13 hs13.2
  have f14 : p14.filter (fun c => c ≠ '-') = p14 := filter_ne_dash_eq_self p14 hs14.2
  have f15 : p15.filter (fun c => c ≠ '-') = p15 := filter_ne_dash_eq_self p15 hs15.2
  have hchunks : chunks2 ((uidFormat [p0, p1, p2, p3, p4, p5, p6, p7, p8, p9, p10, p11, p12, p13, p14, p15]).filter (fun c => c ≠ '-')) =
      [p0, p1, p2, p3, p4, p5, p6, p7, p8, p9, p10, p11, p12, p13, p14, p15] := by
    have hfil : (uidFormat [p0, p1, p2, p3, p4, p5, p6, p7, p8, p9, p10, p11, p12, p13, p14, p15]).filter (fun c => c ≠ '-') =
        ([p0, p1, p2, p3, p4, p5, p6, p7, p8, p9, p10, p11, p12, p13, p14, p15] : List (List Char)).flatten := by
      rw [uidFormat_eq]
      simp only [List.filter_append, filter_dash_cons, f0, f1, f2, f3, f4, f5, f6, f7, f8, f9, f10, f11, f12, f13, f14, f15,
        List.flatten_cons, List.flatten_nil, List.append_nil, List.append_assoc]
    rw [hfil]
    refine chunks2_flatten _ ?_
    intro q hq
    exact (hseg q hq).1
  refine ⟨h1, hchunks, ?_⟩
  have hspec : specUidStart (uidFormat [p0, p1, p2, p3, p4, p5, p6, p7, p8, p9, p10, p11, p12, p13, p14, p15]) := by
    refine ⟨p0 ++ p1 ++ p2 ++ p3, p4 ++ p5, p6 ++ p7, p8 ++ p9,
      p10 ++ p11 ++ p12 ++ p13 ++ p14 ++ p15, [], by simp [uidFormat_eq],
      by simp [hs0.1, hs1.1, hs2.1, hs3.1], by simp [hs4.1, hs5.1],
      by simp [hs6.1, hs7.1], by simp [hs8.1, hs9.1],
      by simp [hs10.1, hs11.1, hs12.1, hs13.1, hs14.1, hs15.1], ?_, ?_, ?_, ?_, ?_⟩
    · exact forall_hex_append (forall_hex_append (forall_hex_append hs0.2 hs1.2) hs2.2) hs3.2
    · exact forall_hex_append hs4.2 hs5.2
    · exact forall_hex_append hs6.2 hs7.2
    · exact forall_hex_append hs8.2 hs9.2
    · exact forall_hex_append (forall_hex_append (forall_hex_append
        (forall_hex_append (forall_hex_append hs10.2 hs11.2) hs12.2) hs13.2) hs14.2) hs15.2
  rw [uid_to_dir, if_pos ((uidRegexMatch_iff _).mpr hspec)]
  rw [uidShardPath, hchunks]


theorem c2_decode_encode_roundtrip_witness :
    hex_pairs_to_uid [PyVal.strList [strChars (r"0f"), strChars (r"86"), strChars (r"b9"), strChars (r"38"), strChars (r"15"), strChars (r"a3"), strChars (r"4f"), strChars (r"1e"), strChars (r"99"), strChars (r"b1"), strChars (r"8f"), strChars (r"2b"), strChars (r"65"), strChars (r"b3"), strChars (r"7a"), strChars (r"03")]] =
      .ok (uidFormat [strChars (r"0f"), strChars (r"86"), strChars (r"b9"), strChars (r"38"), strChars (r"15"), strChars (r"a3"), strChars (r"4f"), strChars (r"1e"), strChars (r"99"), strChars (r"b1"), strChars (r"8f"), strChars (r"2b"), strChars (r"65"), strChars (r"b3"), strChars (r"7a"), strChars (r"03")]) ∧
    chunks2 ((uidFormat [strChars (r"0f"), strChars (r"86"), strChars (r"b9"), strChars (r"38"), strChars (r"15"), strChars (r"a3"), strChars (r"4f"), strChars (r"1e"), strChars (r"99"), strChars (r"b1"), strChars (r"8f"), strChars (r"2b"), strChars (r"65"), strChars (r"b3"), strChars (r"7a"), strChars (r"03")]).filter (fun c => c ≠ '-')) =
      [strChars (r"0f"), strChars (r"86"), strChars (r"b9"), strChars (r"38"), strChars (r"15"), strChars (r"a3"), strChars (r"4f"), strChars (r"1e"), strChars (r"99"), strChars (r"b1"), strChars (r"8f"), strChars (r"2b"), strChars (r"65"), strChars (r"b3"), strChars (r"7a"), strChars (r"03")] ∧
    uid_to_dir (uidFormat [strChars (r"0f"), strChars (r"86"), strChars (r"b9"), strChars (r"38"), strChars (r"15"), strChars (r"a3"), strChars (r"4f"), strChars (r"1e"), strChars (r"99"), strChars (r"b1"), strChars (r"8f"), strChars (r"2b"), strChars (r"65"), strChars (r"b3"), strChars (r"7a"), strChars (r"03")]) =
      .ok (osPathJoin [strChars (r"0f"), strChars (r"86"), strChars (r"b9"), strChars (r"38"), strChars (r"15"), strChars (r"a3"), strChars (r"4f"), strChars (r"1e"), strChars (r"99"), strChars (r"b1"), strChars (r"8f"), strChars (r"2b"), strChars (r"65"), strChars (r"b3"), strChars (r"7a"), strChars (r"03")]) :=
  c2_decode_encode_roundtrip
    [strChars (r"0f"), strChars (r"86"), strChars (r"b9"), strChars (r"38"), strChars (r"15"), strChars (r"a3"), strChars (r"4f"), strChars (r"1e"), strChars (r"99"), strChars (r"b1"), strChars (r"8f"), strChars (r"2b"), strChars (r"65"), strChars (r"b3"), strChars (r"7a"), strChars (r"03")] (by decide) (by decide)

theorem takeWhile_dropWhile_all_append (q : Char → Bool) (l : List Char) (x : Char)
    (rest : List Char) (hl : ∀ c ∈ l, q c = true) (hx : q x = false) :
    List.takeWhile q (l ++ x :: rest) = l ∧ List.dropWhile q (l ++ x :: rest) = x :: rest := by
  induction l with
  | nil => simp [List.takeWhile_cons, List.dropWhile_cons, hx]
  | cons c l ih =>
    have hc := hl c (by simp)
    obtain ⟨iht, ihd⟩ := ih (fun d hd => hl d (by simp [hd]))
    simp [List.takeWhile_cons, List.dropWhile_cons, hc, iht, ihd]

theorem posixSplit_length_lt (p h t : List Char) (heq : posixSplit p = (h, t))
    (h1 : h ≠ p) (h2 : t ≠ p) : h.length < p.length := by
  simp only [posixSplit, Prod.mk.injEq] at heq
  obtain ⟨hfst, hsnd⟩ := heq
  set A := (List.dropWhile (fun c => !(isSep c)) p.reverse).reverse with hA
  set T := (List.takeWhile (fun c => !(isSep c)) p.reverse).reverse with hT
  have hsum : A ++ T = p := by
    rw [hA, hT, ← List.reverse_append, List.takeWhile_append_dropWhile, List.reverse_reverse]
  have hlen : A.length + T.length = p.length := by rw [← List.length_append, hsum]
  by_cases hany : A.any (fun c => !(isSep c)) = true
  · rw [if_pos hany] at hfst
    have hsub := List.dropWhile_sublist (l := A.reverse) isSep
    have hle : h.length ≤ A.length := by
      rw [← hfst, List.length_reverse]
      calc (List.dropWhile isSep A.reverse).length ≤ A.reverse.length := hsub.length_le
        _ = A.length := List.length_reverse _
    by_cases htlnil : T = []
    · have hAp : A = p := by
        rw [htlnil, List.append_nil] at hsum
        exact hsum
      have hne : List.dropWhile isSep A.reverse ≠ A.reverse := by
        intro hcontra
        apply h1
        rw [← hfst, hcontra, List.reverse_reverse, hAp]
      have hlt : (List.dropWhile isSep A.reverse).length < A.reverse.length := by
        rcases lt_or_eq_of_le hsub.length_le with hcase | hcase
        · exact hcase
        · exact absurd (hsub.eq_of_length hcase) hne
      rw [← hfst, List.length_reverse, ← hAp]
      calc (List.dropWhile isSep A.reverse).length < A.reverse.length := hlt
        _ = A.length := List.length_reverse _
    · have hpos : 1 ≤ T.length := by
        cases hcase : T with
        | nil => exact absurd hcase htlnil
        | cons _ _ => simp [hcase]
      omega
  · rw [if_neg hany] at hfst
    have htlnil : T ≠ [] := by
      intro hcontra
      apply h1
      rw [hcontra, List.append_nil] at hsum
      rw [← hfst]
      exact hsum
    have hpos : 1 ≤ T.length := by
      cases hcase : T with
      | nil => exact absurd hcase htlnil
      | cons _ _ => simp [hcase]
    have hh : h.length = A.length := by rw [← hfst]
    omega

theorem split_all_fuel_spec : ∀ (n : Nat) (p : List Char), p.length < n →
    ∃ l, split_all_fuel n p = some l ∧ l ≠ [] := by
  intro n
  induction n with
  | zero => intro p hp; omega
  | succ n ih =>
    intro p hp
    rcases heq : posixSplit p with ⟨hh, tt⟩
    by_cases h1 : hh = p
    · refine ⟨[hh], ?_, by simp⟩
      rw [split_all_fuel, heq]
      simp [h1]
    · by_cases h2 : tt = p
      · refine ⟨[tt], ?_, by simp⟩
        rw [split_all_fuel, heq]
        simp [h1, h2]
      · have hlt := posixSplit_length_lt p hh tt heq h1 h2
        obtain ⟨l, hl, -⟩ := ih hh (by omega)
        refine ⟨l ++ [tt], ?_, by simp⟩
        rw [split_all_fuel, heq]
        simp [h1, h2, hl]

/-- C10: the parent/leaf decomposition loop of `split_all` always terminates
(one length-of-path-plus-one unit of fuel is always enough to reach one of
the two sentinel conditions) and returns a non-empty component list, for every
input string — empty, absolute, relative, or with trailing separators. -/
theorem c10_split_all_terminates (p : List Char) :
    (split_all_fuel (p.length + 1) p).isSome = true ∧ split_all p ≠ [] := by
  obtain ⟨l, hl, hne⟩ := split_all_fuel_spec (p.length + 1) p (by omega)
  refine ⟨by rw [hl]; rfl, ?_⟩
  rw [split_all, hl]
  simpa using hne

theorem reverse_head_of_ne_nil (a : List Char) (ha : a ≠ []) :
    ∃ c t, a.reverse = c :: t ∧ c ∈ a := by
  cases hcase : a.reverse with
  | nil =>
    rw [List.reverse_eq_nil_iff] at hcase
    exact absurd hcase ha
  | cons c t =>
    refine ⟨c, t, rfl, ?_⟩
    rw [← List.mem_reverse, hcase]
    simp

theorem joinPath_append_singleton (s : List (List Char)) (a : List Char) (hne : s ≠ []) :
    joinPath (s ++ [a]) = joinPath s ++ '/' :: a := by
  induction s with
  | nil => exact absurd rfl hne
  | cons p s ih =>
    cases s with
    | nil => rfl
    | cons q rest =>
      calc joinPath ((p :: q :: rest) ++ [a])
          = p ++ '/' :: joinPath ((q :: rest) ++ [a]) := rfl
        _ = p ++ '/' :: (joinPath (q :: rest) ++ '/' :: a) := by rw [ih (by simp)]
        _ = joinPath (p :: q :: rest) ++ '/' :: a := by
            rw [joinPath]
            simp

theorem joinPath_last (s : List (List Char)) (hne : s ≠ [])
    (hseg : ∀ p ∈ s, p ≠ [] ∧ ∀ c ∈ p, isSep c = false) :
    ∃ c t, (joinPath s).reverse = c :: t ∧ isSep c = false := by
  induction s using List.reverseRecOn with
  | nil => exact absurd rfl hne
  | append_singleton s a _ih =>
    have ha := hseg a (by simp)
    obtain ⟨c, t, hrev, hmem⟩ := reverse_head_of_ne_nil a ha.1
    cases s with
    | nil =>
      refine ⟨c, t, ?_, ha.2 c hmem⟩
      simpa using hrev
    | cons p s' =>
      refine ⟨c, t ++ '/' :: (joinPath (p :: s')).reverse, ?_, ha.2 c hmem⟩
      rw [joinPath_append_singleton _ _ (by simp), List.reverse_append, List.reverse_cons,
        hrev]
      simp

theorem posixSplit_no_sep (a : List Char) (h : ∀ c ∈ a, isSep c = false) :
    posixSplit a = ([], a) := by
  have hd : List.dropWhile (fun c => !(isSep c)) a.reverse = [] := by
    rw [List.dropWhile_eq_nil_iff]
    intro x hx
    simp [h x (List.mem_reverse.mp hx)]
  have ht : List.takeWhile (fun c => !(isSep c)) a.reverse = a.reverse := by
    have h2 := List.takeWhile_append_dropWhile (fun c => !(isSep c)) a.reverse
    rw [hd, List.append_nil] at h2
    exact h2
  simp [posixSplit, hd, ht]

theorem posixSplit_sep_cons (a : List Char) (ha : ∀ c ∈ a, isSep c = false) :
    posixSplit ('/' :: a) = (['/'], a) := by
  have hrev : ('/' :: a).reverse = a.reverse ++ '/' :: [] := by simp
  have hl : ∀ c ∈ a.reverse, (fun c => !(isSep c)) c = true := by
    intro c hc
    simp [ha c (List.mem_reverse.mp hc)]
  have hx : (fun c => !(isSep c)) '/' = false := by simp [isSep]
  obtain ⟨ht, hd⟩ := takeWhile_dropWhile_all_append (fun c => !(isSep c)) a.reverse '/' [] hl hx
  simp only [posixSplit, hrev, ht, hd]
  simp [isSep]

theorem posixSplit_append (X a : List Char) (ha : ∀ c ∈ a, isSep c = false)
    (hX : ∃ c t, X.reverse = c :: t ∧ isSep c = false) :
    posixSplit (X ++ '/' :: a) = (X, a) := by
  obtain ⟨c, t, hXr, hc⟩ := hX
  have hrev : (X ++ '/' :: a).reverse = a.reverse ++ '/' :: X.reverse := by
    rw [List.reverse_append, List.reverse_cons]
    simp
  have hl : ∀ d ∈ a.reverse, (fun c => !(isSep c)) d = true := by
    intro d hdm
    simp [ha d (List.mem_reverse.mp hdm)]
  have hx : (fun c => !(isSep c)) '/' = false := by simp [isSep]
  obtain ⟨ht, hd⟩ := takeWhile_dropWhile_all_append (fun c => !(isSep c)) a.reverse '/'
    X.reverse hl hx
  have hany : ((('/' : Char) :: X.reverse).reverse).any (fun c => !(isSep c)) = true := by
    rw [List.any_eq_true]
    have hcm : c ∈ X.reverse := by
      rw [hXr]
      exact List.mem_cons_self c t
    refine ⟨c, ?_, by simp [hc]⟩
    rw [List.mem_reverse]
    exact List.mem_cons_of_mem _ hcm
  have hstrip : List.dropWhile isSep ((('/' : Char) :: X.reverse).reverse).reverse = X.reverse := by
    rw [List.reverse_reverse, List.dropWhile_cons]
    have : isSep '/' = true := by simp [isSep]
    rw [if_pos this, hXr, List.dropWhile_cons, if_neg (by simp [hc])]
  simp only [posixSplit, hrev, ht, hd]
  rw [if_pos hany, hstrip]
  simp

theorem split_all_fuel_root (n : Nat) (hn : 0 < n) :
    split_all_fuel n ['/'] = some [['/']] := by
  cases n with
  | zero => omega
  | succ n =>
    have hps : posixSplit ['/'] = (['/'], []) := by decide
    rw [split_all_fuel, hps]
    simp

theorem split_all_fuel_joinPath (s : List (List Char)) :
    s ≠ [] → (∀ p ∈ s, p ≠ [] ∧ ∀ c ∈ p, isSep c = false) →
    ∀ n, (joinPath s).length < n → split_all_fuel n (joinPath s) = some s := by
  induction s using List.reverseRecOn with
  | nil => intro h; exact absurd rfl h
  | append_singleton s a ih =>
    intro _ hseg n hn
    have ha := hseg a (by simp)
    cases s with
    | nil =>
      cases n with
      | zero => simp at hn
      | succ n =>
        have hps : posixSplit (joinPath [a]) = ([], joinPath [a]) :=
          posixSplit_no_sep _ ha.2
        rw [List.nil_append] at *
        rw [split_all_fuel, hps]
        have h1 : ¬(([] : List Char) = joinPath [a]) := by
          intro hcontra
          exact ha.1 (by simpa [joinPath] using hcontra.symm)
        rw [if_neg h1, if_pos rfl]
        rfl
    | cons p s' =>
      have hne' : p :: s' ≠ ([] : List (List Char)) := by simp
      have hseg' : ∀ q ∈ p :: s', q ≠ [] ∧ ∀ c ∈ q, isSep c = false := by
        intro q hq
        exact hseg q (List.mem_append_left _ hq)
      have hJ : joinPath ((p :: s') ++ [a]) = joinPath (p :: s') ++ '/' :: a :=
        joinPath_append_singleton _ _ hne'
      have hps : posixSplit (joinPath (p :: s') ++ '/' :: a) = (joinPath (p :: s'), a) :=
        posixSplit_append _ _ ha.2 (joinPath_last _ hne' hseg')
      cases n with
      | zero => simp at hn
      | succ n =>
        rw [hJ] at hn ⊢
        rw [split_all_fuel, hps]
        have hlen : (joinPath (p :: s') ++ '/' :: a).length =
            (joinPath (p :: s')).length + 1 + a.length := by
          simp only [List.length_append, List.length_cons]
          omega
        have h1 : ¬(joinPath (p :: s') = joinPath (p :: s') ++ '/' :: a) := by
          intro hcontra
          have := congrArg List.length hcontra
          simp at this
        have h2 : ¬(a = joinPath (p :: s') ++ '/' :: a) := by
          intro hcontra
          have := congrArg List.length hcontra
          simp at this
          omega
        rw [if_neg h1, if_neg h2, ih hne' hseg' n (by omega)]
        rfl

theorem split_all_fuel_abs (s : List (List Char)) :
    s ≠ [] → (∀ p ∈ s, p ≠ [] ∧ ∀ c ∈ p, isSep c = false) →
    ∀ n, ('/' :: joinPath s).length < n →
      split_all_fuel n ('/' :: joinPath s) = some (['/'] :: s) := by
  induction s using List.reverseRecOn with
  | nil => intro h; exact absurd rfl h
  | append_singleton s a ih =>
    intro _ hseg n hn
    have ha := hseg a (by simp)
    cases s with
    | nil =>
      cases n with
      | zero => simp at hn
      | succ n =>
        rw [List.nil_append] at *
        have hps : posixSplit ('/' :: joinPath [a]) = (['/'], joinPath [a]) :=
          posixSplit_sep_cons _ ha.2
        rw [split_all_fuel, hps]
        have h1 : ¬((['/'] : List Char) = '/' :: joinPath [a]) := by
          intro hcontra
          rw [List.cons.injEq] at hcontra
          exact ha.1 (by simpa [joinPath] using hcontra.2.symm)
        have h2 : ¬(joinPath [a] = '/' :: joinPath [a]) := by
          intro hcontra
          have := congrArg List.length hcontra
          simp at this
        rw [if_neg h1, if_neg h2, split_all_fuel_root n (by simp at hn; omega)]
        rfl
    | cons p s' =>
      have hne' : p :: s' ≠ ([] : List (List Char)) := by simp
      have hseg' : ∀ q ∈ p :: s', q ≠ [] ∧ ∀ c ∈ q, isSep c = false := by
        intro q hq
        exact hseg q (List.mem_append_left _ hq)
      have hJ : joinPath ((p :: s') ++ [a]) = joinPath (p :: s') ++ '/' :: a :=
        joinPath_append_singleton _ _ hne'
      obtain ⟨c, t, hlast, hc⟩ := joinPath_last _ hne' hseg'
      have hX : ∃ c t, (('/' : Char) :: joinPath (p :: s')).reverse = c :: t ∧
          isSep c = false := by
        refine ⟨c, t ++ ['/'], ?_, hc⟩
        rw [List.reverse_cons, hlast]
        simp
      have hps : posixSplit (('/' :: joinPath (p :: s')) ++ '/' :: a) =
          ('/' :: joinPath (p :: s'), a) := posixSplit_append _ _ ha.2 hX
      cases n with
      | zero => simp at hn
      | succ n =>
        rw [hJ] at hn ⊢
        rw [show ('/' :: (joinPath (p :: s') ++ '/' :: a)) =
          (('/' :: joinPath (p :: s')) ++ '/' :: a) from rfl] at hn ⊢
        rw [split_all_fuel, hps]
        have h1 : ¬('/' :: joinPath (p :: s') = ('/' :: joinPath (p :: s')) ++ '/' :: a) := by
          intro hcontra
          have := congrArg List.length hcontra
          simp at this
        have h2 : ¬(a = ('/' :: joinPath (p :: s')) ++ '/' :: a) := by
          intro hcontra
          have := congrArg List.length hcontra
          simp at this
          omega
        rw [if_neg h1, if_neg h2, ih hne' hseg' n (by simp at hn ⊢; omega)]
        rfl

theorem getLast_nonSep_of_seg (p : List Char) (hp : p ≠ [] ∧ ∀ c ∈ p, isSep c = false) :
    ∃ d, p.getLast? = some d ∧ isSep d = false := by
  obtain ⟨c, t, hrev, hcm⟩ := reverse_head_of_ne_nil p hp.1
  refine ⟨c, ?_, hp.2 c hcm⟩
  rw [← List.head?_reverse, hrev, List.head?_cons]

theorem foldl_joinOne_eq_joinPath (rest : List (List Char)) :
    ∀ acc : List Char,
      (∀ p ∈ rest, p ≠ [] ∧ ∀ c ∈ p, isSep c = false) →
      (∃ d, acc.getLast? = some d ∧ isSep d = false) →
      rest.foldl joinOne acc = joinPath (acc :: rest) := by
  induction rest with
  | nil => intro acc _ _; rfl
  | cons p rest ih =>
    intro acc hseg hacc
    have hp := hseg p (by simp)
    obtain ⟨d, hd, hdsep⟩ := hacc
    have hhead : ¬(p.head? = some '/') := by
      cases p with
      | nil => exact absurd rfl hp.1
      | cons c cs =>
        intro hcontra
        rw [List.head?_cons, Option.some.injEq] at hcontra
        have hcc := hp.2 c (by simp)
        rw [hcontra] at hcc
        simp [isSep] at hcc
    have haccnil : ¬(acc = [] ∨ acc.getLast? = some '/') := by
      rintro (h | h)
      · rw [h] at hd
        simp at hd
      · rw [hd, Option.some.injEq] at h
        rw [h] at hdsep
        simp [isSep] at hdsep
    have hjoin : joinOne acc p = acc ++ '/' :: p := by
      rw [joinOne, if_neg hhead, if_neg haccnil]
    rw [List.foldl_cons, hjoin]
    have hlast2 : ∃ d2, (acc ++ '/' :: p).getLast? = some d2 ∧ isSep d2 = false := by
      obtain ⟨d2, hd2, hd2sep⟩ := getLast_nonSep_of_seg p hp
      refine ⟨d2, ?_, hd2sep⟩
      rw [List.getLast?_append_of_ne_nil _ (by simp : ('/' :: p) ≠ []),
        show ('/' :: p) = ['/'] ++ p from rfl,
        List.getLast?_append_of_ne_nil _ hp.1]
      exact hd2
    rw [ih (acc ++ '/' :: p) (fun q hq => hseg q (by simp [hq])) hlast2]
    cases rest with
    | nil => rfl
    | cons q rest' =>
      rw [joinPath, joinPath, joinPath]
      simp

theorem osPathJoin_eq_joinPath (s : List (List Char))
    (hseg : ∀ p ∈ s, p ≠ [] ∧ ∀ c ∈ p, isSep c = false) :
    osPathJoin s = joinPath s := by
  cases s with
  | nil => rfl
  | cons p rest =>
    rw [osPathJoin]
    exact foldl_joinOne_eq_joinPath rest p (fun q hq => hseg q (by simp [hq]))
      (getLast_nonSep_of_seg p (hseg p (by simp)))

/-- C5 (amended): `split_all` decomposes both relative and absolute paths into
their ordered components, but not uniformly: for components that are nonempty
and separator-free, the relative join splits back into exactly the components,
while the absolute form keeps the root `/` as an extra first component — a
path naming 16 directories splits into 16 segments when relative and 17 when
absolute.  Moreover `dir_to_uid` never yields the UID for any multi-component
path, relative or absolute: it unpacks the components as separate arguments to
`hex_pairs_to_uid`, whose `list(*pairs)` then raises `TypeError`. -/
theorem c5_split_behavior (s : List (List Char)) (hne : s ≠ [])
    (hseg : ∀ p ∈ s, p ≠ [] ∧ ∀ c ∈ p, isSep c = false) :
    split_all (osPathJoin s) = s ∧
    split_all ('/' :: osPathJoin s) = ['/'] :: s ∧
    (s.length = 16 → (split_all (osPathJoin s)).length = 16 ∧
      (split_all ('/' :: osPathJoin s)).length = 17) ∧
    (2 ≤ s.length → dir_to_uid (osPathJoin s) = .error .typeError ∧
      dir_to_uid ('/' :: osPathJoin s) = .error .typeError) := by
  have hJ : osPathJoin s = joinPath s := osPathJoin_eq_joinPath s hseg
  have h1 : split_all (osPathJoin s) = s := by
    rw [hJ, split_all, split_all_fuel_joinPath s hne hseg _ (by omega)]
    rfl
  have h2 : split_all ('/' :: osPathJoin s) = ['/'] :: s := by
    rw [hJ, split_all, split_all_fuel_abs s hne hseg _ (by omega)]
    rfl
  refine ⟨h1, h2, ?_, ?_⟩
  · intro h16
    constructor
    · rw [h1, h16]
    · rw [h2]
      simp [h16]
  · intro hlen2
    rcases s with _ | ⟨x, _ | ⟨y, rest⟩⟩
    · exact absurd rfl hne
    · simp at hlen2
    · constructor
      · rw [dir_to_uid, h1]
        rfl
      · rw [dir_to_uid, h2]
        rfl

theorem c5_split_behavior_witness :
    split_all (osPathJoin [strChars (r"0f"), strChars (r"86"), strChars (r"b9"), strChars (r"38"), strChars (r"15"), strChars (r"a3"), strChars (r"4f"), strChars (r"1e"), strChars (r"99"), strChars (r"b1"), strChars (r"8f"), strChars (r"2b"), strChars (r"65"), strChars (r"b3"), strChars (r"7a"), strChars (r"03")]) = [strChars (r"0f"), strChars (r"86"), strChars (r"b9"), strChars (r"38"), strChars (r"15"), strChars (r"a3"), strChars (r"4f"), strChars (r"1e"), strChars (r"99"), strChars (r"b1"), strChars (r"8f"), strChars (r"2b"), strChars (r"65"), strChars (r"b3"), strChars (r"7a"), strChars (r"03")] ∧
    split_all ('/' :: osPathJoin [strChars (r"0f"), strChars (r"86"), strChars (r"b9"), strChars (r"38"), strChars (r"15"), strChars (r"a3"), strChars (r"4f"), strChars (r"1e"), strChars (r"99"), strChars (r"b1"), strChars (r"8f"), strChars (r"2b"), strChars (r"65"), strChars (r"b3"), strChars (r"7a"), strChars (r"03")]) = ['/'] :: [strChars (r"0f"), strChars (r"86"), strChars (r"b9"), strChars (r"38"), strChars (r"15"), strChars (r"a3"), strChars (r"4f"), strChars (r"1e"), strChars (r"99"), strChars (r"b1"), strChars (r"8f"), strChars (r"2b"), strChars (r"65"), strChars (r"b3"), strChars (r"7a"), strChars (r"03")] ∧
    dir_to_uid (osPathJoin [strChars (r"0f"), strChars (r"86"), strChars (r"b9"), strChars (r"38"), strChars (r"15"), strChars (r"a3"), strChars (r"4f"), strChars (r"1e"), strChars (r"99"), strChars (r"b1"), strChars (r"8f"), strChars (r"2b"), strChars (r"65"), strChars (r"b3"), strChars (r"7a"), strChars (r"03")]) = .error .typeError := by
  have h := c5_split_behavior [strChars (r"0f"), strChars (r"86"), strChars (r"b9"), strChars (r"38"), strChars (r"15"), strChars (r"a3"), strChars (r"4f"), strChars (r"1e"), strChars (r"99"), strChars (r"b1"), strChars (r"8f"), strChars (r"2b"), strChars (r"65"), strChars (r"b3"), strChars (r"7a"), strChars (r"03")] (by decide) (by decide)
  exact ⟨h.1, h.2.1, (h.2.2.2 (by decide)).1⟩

theorem retrieveLoop_ok (dd sd : List Char) :
    ∀ (rows : List ModelRecord) (fs : FS),
      (∀ r ∈ rows, uidRegexMatch r.unique_id = true) →
      (∀ r ∈ rows, (fs.files (srcZip sd r)).isSome = true) →
      (∀ r ∈ rows, ∀ r' ∈ rows, destZip dd r ≠ srcZip sd r') →
      (rows.map (destZip dd)).Nodup →
      ∃ fs', retrieveLoop dd sd rows fs = (fs', none) ∧
        (∀ r ∈ rows, fs'.files (destZip dd r) = fs.files (srcZip sd r)) ∧
        (∀ p, (∀ r ∈ rows, p ≠ destZip dd r) → fs'.files p = fs.files p) ∧
        (∀ r ∈ rows, fs'.dirs (destDir dd r) = true) ∧
        (∀ p, (∀ r ∈ rows, p ≠ destDir dd r) → fs'.dirs p = fs.dirs p) := by
  intro rows
  induction rows with
  | nil =>
    intro fs _ _ _ _
    exact ⟨fs, rfl, by simp, fun p _ => rfl, by simp, fun p _ => rfl⟩
  | cons row rest ih =>
    intro fs huid hsrc hdisj hnodup
    simp only [List.map_cons, List.nodup_cons] at hnodup
    obtain ⟨hnotin, hnodup'⟩ := hnodup
    have hok : uid_to_dir row.unique_id = .ok (uidShardPath row.unique_id) := by
      rw [uid_to_dir, if_pos (huid row (by simp))]
    obtain ⟨content, hcontent⟩ : ∃ c, fs.files (srcZip sd row) = some c := by
      have hsr := hsrc row (by simp)
      cases hcase : fs.files (srcZip sd row) with
      | none =>
        rw [hcase] at hsr
        simp at hsr
      | some c => exact ⟨c, rfl⟩
    set fs2 : FS :=
      { dirs := fun p => if p = destDir dd row then true else fs.dirs p,
        files := fun p => if p = destZip dd row then some content else fs.files p } with hfs2
    have hcontent1 : (makedirs fs (destDir dd row)).files
        (osPathJoin [sd, uidShardPath row.unique_id, strChars (r"data.zip")]) =
        some content := hcontent
    have hcopy : copyFile (makedirs fs (destDir dd row))
        (osPathJoin [sd, uidShardPath row.unique_id, strChars (r"data.zip")])
        (destZip dd row) = .ok fs2 := by
      unfold copyFile
      rw [hcontent1]
      rfl
    have hfsub : ∀ r' ∈ rest, fs2.files (srcZip sd r') = fs.files (srcZip sd r') := by
      intro r' hr'
      have hne : srcZip sd r' ≠ destZip dd row :=
        (hdisj row (by simp) r' (by simp [hr'])).symm
      simp [hfs2, hne]
    obtain ⟨fs', hloop, hdest, hother, hdirs, hdirso⟩ :=
      ih fs2 (fun r hr => huid r (by simp [hr]))
        (fun r hr => by rw [hfsub r hr]; exact hsrc r (by simp [hr]))
        (fun r hr r' hr' => hdisj r (by simp [hr]) r' (by simp [hr']))
        hnodup'
    refine ⟨fs', ?_, ?_, ?_, ?_, ?_⟩
    · simp only [retrieveLoop, hok, hcopy]
      exact hloop
    · intro r hr
      rcases List.mem_cons.mp hr with rfl | hr
      · have hown : ∀ r' ∈ rest, destZip dd r ≠ destZip dd r' := by
          intro r' hr' heq
          exact hnotin (heq ▸ List.mem_map_of_mem _ hr')
        rw [hother (destZip dd r) hown]
        simp [hfs2]
        exact hcontent.symm
      · rw [hdest r hr, hfsub r hr]
    · intro p hp
      rw [hother p (fun r hr => hp r (by simp [hr]))]
      have hne : p ≠ destZip dd row := hp row (by simp)
      simp [hfs2, hne]
    · intro r hr
      rcases List.mem_cons.mp hr with rfl | hr
      · by_cases hx : ∃ r' ∈ rest, destDir dd r = destDir dd r'
        · obtain ⟨r', hr', heq⟩ := hx
          rw [heq]
          exact hdirs r' hr'
        · push_neg at hx
          rw [hdirso (destDir dd r) hx]
          simp [hfs2]
      · exact hdirs r hr
    · intro p hp
      rw [hdirso p (fun r hr => hp r (by simp [hr]))]
      have hne : p ≠ destDir dd row := hp row (by simp)
      simp [hfs2, hne]

theorem retrieveLoop_append (dd sd : List Char) (rows1 rows2 : List ModelRecord) :
    ∀ fs : FS, retrieveLoop dd sd (rows1 ++ rows2) fs =
      match retrieveLoop dd sd rows1 fs with
      | (fs', none) => retrieveLoop dd sd rows2 fs'
      | (fs', some e) => (fs', some e) := by
  induction rows1 with
  | nil => intro fs; rfl
  | cons row rest ih =>
    intro fs
    rw [List.cons_append]
    cases huidc : uid_to_dir row.unique_id with
    | error e => simp only [retrieveLoop, huidc]
    | ok sdir =>
      cases hcopyc : copyFile (makedirs fs (destDir dd row))
          (osPathJoin [sd, sdir, strChars (r"data.zip")]) (destZip dd row) with
      | error e => simp only [retrieveLoop, huidc, hcopyc]
      | ok fs2 =>
        simp only [retrieveLoop, huidc, hcopyc]
        exact ih fs2

/-- C6: given a result set of records with valid UIDs, readable source
archives, and pairwise-distinct destination files disjoint from the sources,
`retrieve_models` reports the record count, writes each record's archive to
`<destination>/<db_user>/<project>/<material>/<geometry>/<size>/<temperature>/<uid>.zip`
(byte-for-byte the source content), touches no other file, and a second run
over the same records succeeds identically, overwriting the same files and
recreating the existing directories without error (directory creation is
`exist_ok=True`, hence idempotent). -/
theorem c6_retrieve (rows : List ModelRecord) (dd sd : List Char) (fs : FS)
    (huid : ∀ r ∈ rows, uidRegexMatch r.unique_id = true)
    (hsrc : ∀ r ∈ rows, (fs.files (srcZip sd r)).isSome = true)
    (hdisj : ∀ r ∈ rows, ∀ r' ∈ rows, destZip dd r ≠ srcZip sd r')
    (hnodup : (rows.map (destZip dd)).Nodup) :
    ∃ fs', retrieve_models rows dd sd fs = (fs', .ok rows.length) ∧
      (∀ r ∈ rows, fs'.files (destZip dd r) = fs.files (srcZip sd r)) ∧
      (∀ p, (∀ r ∈ rows, p ≠ destZip dd r) → fs'.files p = fs.files p) ∧
      (∀ r ∈ rows, fs'.dirs (destDir dd r) = true) ∧
      retrieve_models rows dd sd fs' = (fs', .ok rows.length) := by
  obtain ⟨fs', hloop, hdest, hother, hdirs, hdirso⟩ :=
    retrieveLoop_ok dd sd rows fs huid hsrc hdisj hnodup
  have hmain : retrieve_models rows dd sd fs = (fs', .ok rows.length) := by
    simp only [retrieve_models, hloop]
  have hsrc' : ∀ r ∈ rows, (fs'.files (srcZip sd r)).isSome = true := by
    intro r hr
    rw [hother (srcZip sd r) (fun r' hr' => (hdisj r' hr' r hr).symm)]
    exact hsrc r hr
  obtain ⟨fs'', hloop2, hdest2, hother2, hdirs2, hdirso2⟩ :=
    retrieveLoop_ok dd sd rows fs' huid hsrc' hdisj hnodup
  have hfiles : fs''.files = fs'.files := by
    funext p
    by_cases hx : ∃ r ∈ rows, p = destZip dd r
    · obtain ⟨r, hr, rfl⟩ := hx
      rw [hdest2 r hr, hother (srcZip sd r) (fun r' hr' => (hdisj r' hr' r hr).symm),
        ← hdest r hr]
    · push_neg at hx
      exact hother2 p hx
  have hdirseq : fs''.dirs = fs'.dirs := by
    funext p
    by_cases hx : ∃ r ∈ rows, p = destDir dd r
    · obtain ⟨r, hr, rfl⟩ := hx
      rw [hdirs2 r hr, hdirs r hr]
    · push_neg at hx
      exact hdirso2 p hx
  have hfseq : fs'' = fs' := by
    have h1 : fs'' = FS.mk fs''.dirs fs''.files := rfl
    rw [h1, hdirseq, hfiles]
  refine ⟨fs', hmain, hdest, hother, hdirs, ?_⟩
  rw [show retrieve_models rows dd sd fs' = (fs'', .ok rows.length) from by
    simp only [retrieve_models, hloop2], hfseq]

theorem c6_retrieve_witness :
    (retrieve_models [exRec] (strChars (r"/dest")) (strChars (r"/src")) exFS).2 = .ok 1 ∧
    (retrieve_models [exRec] (strChars (r"/dest")) (strChars (r"/src")) exFS).1.files
        (destZip (strChars (r"/dest")) exRec) =
      exFS.files (srcZip (strChars (r"/src")) exRec) := by
  obtain ⟨fs', h1, h2, -, -, -⟩ := c6_retrieve [exRec] (strChars (r"/dest"))
    (strChars (r"/src")) exFS (by decide) (by decide) (by decide) (by decide)
  rw [h1]
  exact ⟨rfl, h2 exRec (by simp)⟩

/-- C7: if one record's source archive
`<source_root>/<16 shard segments>/data.zip` is absent, `retrieve_models`
aborts with the missing-source error naming that record's source path (which
is derived from its UID via the shard encoding), reports no success count,
does not process the remaining records, and leaves the files copied before the
failure in place (no rollback). -/
theorem c7_retrieve_missing_source (pre post : List ModelRecord) (bad : ModelRecord)
    (dd sd : List Char) (fs : FS)
    (huid : ∀ r ∈ pre, uidRegexMatch r.unique_id = true)
    (hbaduid : uidRegexMatch bad.unique_id = true)
    (hsrc : ∀ r ∈ pre, (fs.files (srcZip sd r)).isSome = true)
    (hbad : fs.files (srcZip sd bad) = none)
    (hdisj : ∀ r ∈ pre, ∀ r' ∈ pre, destZip dd r ≠ srcZip sd r')
    (hdisjbad : ∀ r ∈ pre, destZip dd r ≠ srcZip sd bad)
    (hnodup : (pre.map (destZip dd)).Nodup) :
    ∃ fs', retrieve_models (pre ++ bad :: post) dd sd fs =
        (fs', .error (.sourceArchiveMissing (srcZip sd bad))) ∧
      (∀ r ∈ pre, fs'.files (destZip dd r) = fs.files (srcZip sd r)) ∧
      (∀ p, (∀ r ∈ pre, p ≠ destZip dd r) → fs'.files p = fs.files p) := by
  obtain ⟨fsp, hloop, hdest, hother, hdirs, hdirso⟩ :=
    retrieveLoop_ok dd sd pre fs huid hsrc hdisj hnodup
  have hbadok : uid_to_dir bad.unique_id = .ok (uidShardPath bad.unique_id) := by
    rw [uid_to_dir, if_pos hbaduid]
  have hbadsrc : fsp.files (srcZip sd bad) = none := by
    rw [hother (srcZip sd bad) (fun r hr => (hdisjbad r hr).symm)]
    exact hbad
  have hbadsrc1 : (makedirs fsp (destDir dd bad)).files
      (osPathJoin [sd, uidShardPath bad.unique_id, strChars (r"data.zip")]) = none :=
    hbadsrc
  have hcopybad : copyFile (makedirs fsp (destDir dd bad))
      (osPathJoin [sd, uidShardPath bad.unique_id, strChars (r"data.zip")])
      (destZip dd bad) =
      .error (.sourceArchiveMissing (srcZip sd bad)) := by
    unfold copyFile
    rw [hbadsrc1]
    rfl
  have hloopall : retrieveLoop dd sd (pre ++ bad :: post) fs =
      (makedirs fsp (destDir dd bad), some (.sourceArchiveMissing (srcZip sd bad))) := by
    rw [retrieveLoop_append, hloop]
    show retrieveLoop dd sd (bad :: post) fsp = _
    simp only [retrieveLoop, hbadok, hcopybad]
  refine ⟨makedirs fsp (destDir dd bad), ?_, ?_, ?_⟩
  · simp only [retrieve_models, hloopall]
  · intro r hr
    have hmk : (makedirs fsp (destDir dd bad)).files (destZip dd r) =
        fsp.files (destZip dd r) := rfl
    rw [hmk, hdest r hr]
  · intro p hp
    have hmk : (makedirs fsp (destDir dd bad)).files p = fsp.files p := rfl
    rw [hmk, hother p hp]

theorem c7_retrieve_missing_source_witness :
    (retrieve_models [exRecBad] (strChars (r"/dest")) (strChars (r"/src")) exFS).2 =
      .error (.sourceArchiveMissing (srcZip (strChars (r"/src")) exRecBad)) := by
  obtain ⟨fs', h1, -, -⟩ := c7_retrieve_missing_source [] [] exRecBad
    (strChars (r"/dest")) (strChars (r"/src")) exFS (by decide) (by decide)
    (by decide) (by decide) (by decide) (by decide) (by decide)
  rw [show ([exRecBad] : List ModelRecord) = [] ++ exRecBad :: [] from rfl, h1]

theorem char_ofNat_digit : ∀ k, k < 10 →
    '0' ≤ Char.ofNat (48 + k) ∧ Char.ofNat (48 + k) ≤ '9' := by
  decide

theorem natCharsAux_digit : ∀ (fuel n : Nat) (acc : List Char),
    (∀ c ∈ acc, '0' ≤ c ∧ c ≤ '9') →
    ∀ c ∈ natCharsAux fuel n acc, '0' ≤ c ∧ c ≤ '9' := by
  intro fuel
  induction fuel with
  | zero =>
    intro n acc hacc c hc
    exact hacc c hc
  | succ fuel ih =>
    intro n acc hacc c hc
    rw [natCharsAux] at hc
    have hd := char_ofNat_digit (n % 10) (Nat.mod_lt _ (by omega))
    have hacc' : ∀ x ∈ Char.ofNat (48 + n % 10) :: acc, '0' ≤ x ∧ x ≤ '9' := by
      intro x hx
      rcases List.mem_cons.mp hx with rfl | hx
      · exact hd
      · exact hacc x hx
    by_cases hn : n < 10
    · rw [if_pos hn] at hc
      exact hacc' c hc
    · rw [if_neg hn] at hc
      exact ih (n / 10) _ hacc' c hc

theorem natChars_digit (n : Nat) : ∀ c ∈ natChars n, '0' ≤ c ∧ c ≤ '9' := by
  intro c hc
  exact natCharsAux_digit (n + 1) n [] (by simp) c hc

theorem digit_ne_nl_comma {c : Char} (h : '0' ≤ c ∧ c ≤ '9') : c ≠ '\n' ∧ c ≠ ',' := by
  constructor
  · intro heq
    subst heq
    revert h
    decide
  · intro heq
    subst heq
    revert h
    decide

theorem sepJoin_mem (sep : Char) : ∀ (fields : List (List Char)),
    ∀ c ∈ sepJoin sep fields, c = sep ∨ ∃ f ∈ fields, c ∈ f := by
  intro fields
  induction fields with
  | nil =>
    intro c hc
    simp [sepJoin] at hc
  | cons f fields ih =>
    cases fields with
    | nil =>
      intro c hc
      rw [sepJoin] at hc
      exact Or.inr ⟨f, by simp, hc⟩
    | cons g rest =>
      intro c hc
      rw [sepJoin] at hc
      rcases List.mem_append.mp hc with hc | hc
      · exact Or.inr ⟨f, by simp, hc⟩
      · rcases List.mem_cons.mp hc with rfl | hc
        · exact Or.inl rfl
        · rcases ih c hc with h | ⟨f', hf', hcf⟩
          · exact Or.inl h
          · exact Or.inr ⟨f', by simp [hf'], hcf⟩

theorem count_nl_sepJoin : ∀ (ls : List (List Char)), ls ≠ [] →
    (∀ l ∈ ls, ∀ c ∈ l, c ≠ '\n') →
    ((sepJoin '\n' ls).filter (fun c => c = '\n')).length = ls.length - 1 := by
  intro ls
  induction ls with
  | nil => intro h; exact absurd rfl h
  | cons l ls ih =>
    intro _ hfree
    have hl : l.filter (fun c => c = '\n') = [] := by
      rw [List.filter_eq_nil_iff]
      intro a ha
      simpa using hfree l (by simp) a ha
    cases ls with
    | nil =>
      rw [sepJoin, hl]
      rfl
    | cons m rest =>
      rw [sepJoin, List.filter_append, hl, List.nil_append, List.filter_cons]
      have hrec := ih (by simp) (fun q hq => hfree q (by simp [hq]))
      simp only [decide_True, if_true]
      rw [List.length_cons, hrec]
      simp only [List.length_cons]
      omega

theorem statColumns_no_nl : ∀ f ∈ [] :: statColumns, ∀ c ∈ f, ¬(c = '\n') := by
  decide

/-- C8: given a result set of N records (whose field values contain no
newline or comma, so that the delimited serialization is line-per-row), the
produced table has exactly N+1 rows — the header plus one row per record —
every row carries the leading index column followed by the 25 declared
columns in their fixed declared order, the serialized text has exactly N+1
lines, and the reported count is N. -/
theorem c8_model_stats (rows : List ModelRecord)
    (hfields : ∀ r ∈ rows, ∀ f ∈ recordFields r, ∀ c ∈ f, c ≠ '\n' ∧ c ≠ ',') :
    (model_stats rows).2 = rows.length ∧
    (model_stats_table rows).length = rows.length + 1 ∧
    (model_stats_table rows).head? = some ([] :: statColumns) ∧
    statColumns.length = 25 ∧
    (∀ line ∈ model_stats_table rows, line.length = 26) ∧
    countLines (csvRender (model_stats_table rows)) = rows.length + 1 := by
  refine ⟨rfl, ?_, rfl, by decide, ?_, ?_⟩
  · simp [model_stats_table, List.enum_length]
  · intro line hline
    rcases List.mem_cons.mp hline with rfl | hline
    · decide
    · obtain ⟨⟨i, r⟩, hmem, rfl⟩ := List.mem_map.mp hline
      simp [recordFields]
  · have hne : (model_stats_table rows).map (sepJoin ',') ≠ [] := by
      simp [model_stats_table]
    have hfree : ∀ l ∈ (model_stats_table rows).map (sepJoin ','), ∀ c ∈ l, c ≠ '\n' := by
      intro l hl c hc
      obtain ⟨line, hline, rfl⟩ := List.mem_map.mp hl
      rcases sepJoin_mem ',' line c hc with rfl | ⟨f, hf, hcf⟩
      · decide
      · rcases List.mem_cons.mp hline with rfl | hline
        · exact statColumns_no_nl f hf c hcf
        · obtain ⟨⟨i, r⟩, hmem, rfl⟩ := List.mem_map.mp hline
          have hr : r ∈ rows := List.get?_mem (List.mk_mem_enum_iff_get?.mp hmem)
          rcases List.mem_cons.mp hf with rfl | hf
          · exact (digit_ne_nl_comma (natChars_digit i c hcf)).1
          · exact (hfields r hr f hf c hcf).1
    rw [csvRender, countLines, count_nl_sepJoin _ hne hfree]
    simp only [List.length_map]
    have hlen : (model_stats_table rows).length = rows.length + 1 := by
      simp [model_stats_table, List.enum_length]
    omega

theorem c8_model_stats_witness :
    (model_stats [exRec]).2 = 1 ∧
    (model_stats_table [exRec]).length = 2 ∧
    countLines (csvRender (model_stats_table [exRec])) = 2 := by
  have h := c8_model_stats [exRec] (by decide)
  exact ⟨h.1, h.2.1, h.2.2.2.2.2⟩

theorem likeMatch_no_wildcard : ∀ (p t : List Char),
    (∀ c ∈ p, c ≠ '%' ∧ c ≠ '_') → (likeMatch p t = true ↔ t = p) := by
  intro p
  induction p with
  | nil =>
    intro t _
    cases t <;> simp [likeMatch]
  | cons a p ih =>
    intro t hw
    have ha := hw a (by simp)
    cases t with
    | nil => simp [likeMatch, ha.1]
    | cons c t =>
      by_cases hac : a = c
      · subst hac
        simp [likeMatch, ha.1, ha.2, ih t (fun d hd => hw d (by simp [hd]))]
      · simp [likeMatch, ha.1, ha.2, hac]
        intro h
        exact absurd h.symm hac

/-- C9: `get_models_by_user_project` returns exactly the records of catalog
rows whose running status equals the literal string `"finished"` — the status
pattern is fixed in the query and no input can change it (the theorem holds
for every `db_user` and `project_name` input, and a wildcard-free `LIKE`
pattern such as `'finished'` matches only its literal self) — while the
`db_user` and `project_name` inputs are matched with SQL `LIKE` semantics, in
which `%` and `_` are significant wildcards rather than literal characters. -/
theorem c9_query_filter (db_user project_name : List Char) (catalog : List CatalogRow) :
    (∀ rec, rec ∈ get_models_by_user_project db_user project_name catalog ↔
      ∃ row ∈ catalog, rec = row.mrec ∧
        likeMatch db_user row.mrec.db_user = true ∧
        likeMatch project_name row.mrec.project_name = true ∧
        row.status_name = strChars (r"finished")) ∧
    (∀ t, likeMatch (strChars (r"finished")) t = true ↔ t = strChars (r"finished")) ∧
    likeMatch (strChars (r"a%")) (strChars (r"axyz")) = true ∧
    likeMatch (strChars (r"a_")) (strChars (r"ab")) = true ∧
    strChars (r"a%") ≠ strChars (r"axyz") := by
  have hfin : ∀ t, likeMatch (strChars (r"finished")) t = true ↔
      t = strChars (r"finished") :=
    fun t => likeMatch_no_wildcard _ t (by decide)
  have hw1 : likeMatch (strChars (r"a%")) (strChars (r"axyz")) = true := by
    show likeMatch ['a', '%'] ['a', 'x', 'y', 'z'] = true
    simp [likeMatch]
  have hw2 : likeMatch (strChars (r"a_")) (strChars (r"ab")) = true := by
    show likeMatch ['a', '_'] ['a', 'b'] = true
    simp [likeMatch]
  refine ⟨?_, hfin, hw1, hw2, by decide⟩
  intro rec
  rw [get_models_by_user_project]
  simp only [List.mem_map, List.mem_filter]
  constructor
  · rintro ⟨row, ⟨hrow, hcond⟩, rfl⟩
    simp only [Bool.and_eq_true] at hcond
    exact ⟨row, hrow, rfl, hcond.1.1, hcond.1.2, (hfin _).mp hcond.2⟩
  · rintro ⟨row, hrow, rfl, h1, h2, h3⟩
    exact ⟨row, ⟨hrow, by simp [h1, h2, (hfin _).mpr h3]⟩, rfl⟩
